import Mathlib

/-!
# Verification of the DatePicker calendar-grid / selection core

Shallow embedding of the date logic of `src/components/DatePicker.tsx`
(`generateCalendarDays`, `isDateSelectable`, `handleDateSelect`,
`handleClear`, `handleToday`, the month-navigation buttons of
`renderCalendarHeader`, `formatDate` and `formatCustomDate`).

A JavaScript `Date` is modelled by its civil coordinates: `year`
(`getFullYear`), `month` (`getMonth`, 0 = January), `day` (`getDate`,
1-based) plus the milliseconds elapsed within the day (`msOfDay`).
A JS `Date` is really an epoch-milliseconds timestamp; for a date whose
civil fields are in their normal ranges (`Valid` below) that timestamp
is `dayNumber * 86400000 + msOfDay`, where `dayNumber` is the number of
calendar days since 1970-01-01 (computed by the standard proleptic
Gregorian civil-to-day algorithm).  Order comparisons on `Date` values
(`date < minDate` etc.) compare timestamps, embedded here via `ts`.

`new Date(y, m)` / `new Date(y, m, 1)` are embedded by `newDateYM`,
including the ECMAScript rule that a year argument in 0..99 is read as
1900 + year.  `setDate(getDate() + 1)` on a valid date moves to the next
calendar day (`nextDay`); `setDate(1 - w)` on the first of a month with
`w ∈ [0,6]` moves `w` calendar days back (`prevDay` iterated).
-/

/-- A JavaScript `Date`, by civil coordinates plus time of day. -/
structure JSDate where
  year : Int
  month : Int
  day : Int
  msOfDay : Int
  deriving DecidableEq, Repr

instance : Inhabited JSDate := ⟨⟨1970, 0, 1, 0⟩⟩

/-- Gregorian leap year. -/
def isLeap (y : Int) : Bool :=
  (y % 4 == 0 && y % 100 != 0) || y % 400 == 0

/-- Number of days in month `m` (0 = January) of year `y`. -/
def daysInMonth (y m : Int) : Int :=
  if m = 1 then (if isLeap y then 29 else 28)
  else if m = 3 ∨ m = 5 ∨ m = 8 ∨ m = 10 then 30
  else 31

/-- The civil fields are in their normal ranges (a real calendar date). -/
def Valid (x : JSDate) : Prop :=
  0 ≤ x.month ∧ x.month ≤ 11 ∧ 1 ≤ x.day ∧ x.day ≤ daysInMonth x.year x.month ∧
    0 ≤ x.msOfDay ∧ x.msOfDay < 86400000

instance (x : JSDate) : Decidable (Valid x) := by unfold Valid; infer_instance

/-- Days since 1970-01-01 of a civil date (proleptic Gregorian calendar;
the standard `days_from_civil` computation, with months 0-based). -/
def dayNum (x : JSDate) : Int :=
  let y : Int := if x.month ≤ 1 then x.year - 1 else x.year
  let era : Int := y / 400
  let yoe : Int := y - era * 400
  let mp : Int := if 2 ≤ x.month then x.month - 2 else x.month + 10
  let doy : Int := (153 * mp + 2) / 5 + x.day - 1
  let doe : Int := yoe * 365 + yoe / 4 - yoe / 100 + doy
  era * 146097 + doe - 719468

/-- Epoch-milliseconds timestamp of a date (the number a JS `Date`
coerces to in `<` / `>` comparisons). -/
def ts (x : JSDate) : Int :=
  dayNum x * 86400000 + x.msOfDay

/-- `getDay()`: weekday, Sunday = 0 (1970-01-01 was a Thursday). -/
def getDay (x : JSDate) : Int :=
  (dayNum x + 4) % 7

/-- The ECMAScript `Date` constructor's year rule: a year argument in
0..99 denotes 1900 + year. -/
def yearAdj (y : Int) : Int :=
  if 0 ≤ y ∧ y ≤ 99 then y + 1900 else y

/-- `new Date(y, m)` (equivalently `new Date(y, m, 1)`): the year-0..99
rule applies to the year argument, the month argument is normalized into
0..11 carrying whole years, the day is 1, time 00:00. -/
def newDateYM (y m : Int) : JSDate :=
  ⟨yearAdj y + m / 12, m % 12, 1, 0⟩

/-- `d.setDate(d.getDate() + 1)` on a valid date: the next calendar day. -/
def nextDay (x : JSDate) : JSDate :=
  if x.day < daysInMonth x.year x.month then ⟨x.year, x.month, x.day + 1, x.msOfDay⟩
  else if x.month < 11 then ⟨x.year, x.month + 1, 1, x.msOfDay⟩
  else ⟨x.year + 1, 0, 1, x.msOfDay⟩

/-- Moving one calendar day back (used to embed `setDate(1 - w)` on the
first of a month as `w` single-day steps back). -/
def prevDay (x : JSDate) : JSDate :=
  if 1 < x.day then ⟨x.year, x.month, x.day - 1, x.msOfDay⟩
  else if 0 < x.month then ⟨x.year, x.month - 1, daysInMonth x.year (x.month - 1), x.msOfDay⟩
  else ⟨x.year - 1, 11, 31, x.msOfDay⟩

/-- `iterN f n x`: `f` applied `n` times to `x`. -/
def iterN {α : Type} (f : α → α) : Nat → α → α
  | 0, x => x
  | n + 1, x => iterN f n (f x)

theorem iterN_succ_left {α : Type} (f : α → α) (n : Nat) (x : α) :
    iterN f (n + 1) x = iterN f n (f x) := rfl

theorem iterN_succ_right {α : Type} (f : α → α) (n : Nat) (x : α) :
    iterN f (n + 1) x = f (iterN f n x) := by
  induction n generalizing x with
  | zero => rfl
  | succ n ih => rw [iterN_succ_left, ih, iterN_succ_left]

/-- `generateCalendarDays` (DatePicker.tsx, lines 394–411): from the
display month's year and month, take the first of that month
(`new Date(year, month, 1)`), step back by its weekday index
(`startDate.setDate(startDate.getDate() - firstDay.getDay())`, and
`getDate()` is 1 there), then emit 42 consecutive calendar days.
The `lastDay` binding of the source is unused by the loop and omitted. -/
def generateCalendarDays (currentMonth : JSDate) : List JSDate :=
  let firstDay := newDateYM currentMonth.year currentMonth.month
  let start := iterN prevDay (getDay firstDay).toNat firstDay
  (List.range 42).map (fun i => iterN nextDay i start)

/-- Optional min/max date bounds (the `minDate` / `maxDate` props). -/
structure DateBounds where
  minDate : Option JSDate
  maxDate : Option JSDate

/-- `isDateSelectable` (lines 414–418): `false` if a `minDate` is given
and `date < minDate`, `false` if a `maxDate` is given and
`date > maxDate`, else `true`; `<` / `>` compare timestamps. -/
def isDateSelectable (b : DateBounds) (date : JSDate) : Bool :=
  if b.minDate.any (fun mn => ts date < ts mn) then false
  else if b.maxDate.any (fun mx => ts mx < ts date) then false
  else true

/-- The component state touched by the handlers: `selectedDate`,
`currentMonth` (the display month) and the modal's visibility. -/
structure PickerState where
  selectedDate : JSDate
  currentMonth : JSDate
  modalVisible : Bool
  deriving DecidableEq, Repr

/-- `handleDateSelect` (lines 421–428): early-return when the date is
not selectable; otherwise set `selectedDate`, fire `onChange` (an
external callback, outside this state) and close the modal.
`currentMonth` is not touched. -/
def handleDateSelect (b : DateBounds) (st : PickerState) (date : JSDate) : PickerState :=
  if isDateSelectable b date then
    { st with selectedDate := date, modalVisible := false }
  else st

/-- `handleClear` (lines 431–434): set `selectedDate` to `new Date()`
(the current instant, passed in as `now`) and fire `onChange`. -/
def handleClear (now : JSDate) (st : PickerState) : PickerState :=
  { st with selectedDate := now }

/-- `handleToday` (lines 437–444): `today = new Date()` (passed in);
set `selectedDate` and `currentMonth` to it and close the modal. -/
def handleToday (today : JSDate) (st : PickerState) : PickerState :=
  { st with selectedDate := today, currentMonth := today, modalVisible := false }

/-- The month-navigation buttons of `renderCalendarHeader` (lines
454–482) set `currentMonth` to
`new Date(currentMonth.getFullYear(), currentMonth.getMonth() ± 1)`;
following the spec's §4.4 this is the general
`navigateMonth(delta) = new Date(y, m + delta)`, of which the two
buttons are the `delta = ±1` instances. `selectedDate` is untouched. -/
def navigateMonth (delta : Int) (st : PickerState) : PickerState :=
  { st with currentMonth := newDateYM st.currentMonth.year (st.currentMonth.month + delta) }

/-! ## Calendar arithmetic lemmas -/

theorem daysInMonth_bnd (y m : Int) : 28 ≤ daysInMonth y m ∧ daysInMonth y m ≤ 31 := by
  unfold daysInMonth isLeap
  split_ifs <;> omega

theorem valid_nextDay {x : JSDate} (h : Valid x) : Valid (nextDay x) := by
  obtain ⟨h1, h2, h3, h4, h5, h6⟩ := h
  have b1 := daysInMonth_bnd x.year (x.month + 1)
  have b2 := daysInMonth_bnd (x.year + 1) 0
  unfold nextDay
  split_ifs with hd hm <;> simp only [Valid] <;> omega

theorem valid_prevDay {x : JSDate} (h : Valid x) : Valid (prevDay x) := by
  obtain ⟨h1, h2, h3, h4, h5, h6⟩ := h
  have b1 := daysInMonth_bnd x.year (x.month - 1)
  have b2 : daysInMonth (x.year - 1) 11 = 31 := by unfold daysInMonth; norm_num
  unfold prevDay
  split_ifs with hd hm <;> simp only [Valid] <;> omega

theorem nextDay_prevDay {x : JSDate} (h : Valid x) : nextDay (prevDay x) = x := by
  obtain ⟨h1, h2, h3, h4, h5, h6⟩ := h
  obtain ⟨y, m, d, msd⟩ := x
  simp only at h1 h2 h3 h4 h5 h6
  have b1 := daysInMonth_bnd y m
  have b2 := daysInMonth_bnd y (m - 1)
  have b3 : daysInMonth (y - 1) 11 = 31 := by unfold daysInMonth; norm_num
  unfold prevDay
  dsimp only
  split_ifs with hd hm
  · unfold nextDay
    dsimp only
    rw [if_pos (by omega)]
    simp only [JSDate.mk.injEq, and_true, true_and]
    omega
  · unfold nextDay
    dsimp only
    rw [if_neg (by omega), if_pos (by omega)]
    simp only [JSDate.mk.injEq, and_true, true_and]
    omega
  · unfold nextDay
    dsimp only
    rw [if_neg (by omega), if_neg (by omega)]
    simp only [JSDate.mk.injEq, and_true, true_and]
    omega

theorem dayNum_nextDay {x : JSDate} (h : Valid x) : dayNum (nextDay x) = dayNum x + 1 := by
  obtain ⟨y, m, d, msd⟩ := x
  obtain ⟨h1, h2, h3, h4, -, -⟩ := h
  simp only at h1 h2 h3 h4
  have k1 : ((y - 1) % 400) % 4 = (y - 1) % 4 := Int.emod_emod_of_dvd _ (by norm_num)
  have k2 : ((y - 1) % 400) % 100 = (y - 1) % 100 := Int.emod_emod_of_dvd _ (by norm_num)
  have k3 : (y % 400) % 4 = y % 4 := Int.emod_emod_of_dvd _ (by norm_num)
  have k4 : (y % 400) % 100 = y % 100 := Int.emod_emod_of_dvd _ (by norm_num)
  unfold nextDay daysInMonth isLeap at *
  interval_cases m <;> norm_num at h4 ⊢ <;>
    split_ifs at h4 ⊢ <;> simp only [dayNum] <;> norm_num <;> omega

theorem dayNum_prevDay {x : JSDate} (h : Valid x) : dayNum (prevDay x) = dayNum x - 1 := by
  have hv := valid_prevDay h
  have := dayNum_nextDay hv
  rw [nextDay_prevDay h] at this
  omega

theorem valid_iterN_nextDay {x : JSDate} (h : Valid x) (k : Nat) :
    Valid (iterN nextDay k x) := by
  induction k generalizing x with
  | zero => exact h
  | succ k ih => rw [iterN_succ_left]; exact ih (valid_nextDay h)

theorem valid_iterN_prevDay {x : JSDate} (h : Valid x) (k : Nat) :
    Valid (iterN prevDay k x) := by
  induction k generalizing x with
  | zero => exact h
  | succ k ih => rw [iterN_succ_left]; exact ih (valid_prevDay h)

theorem dayNum_iterN_nextDay {x : JSDate} (h : Valid x) (k : Nat) :
    dayNum (iterN nextDay k x) = dayNum x + k := by
  induction k generalizing x with
  | zero => simp [iterN]
  | succ k ih =>
      rw [iterN_succ_left, ih (valid_nextDay h), dayNum_nextDay h]
      push_cast
      ring

theorem dayNum_iterN_prevDay {x : JSDate} (h : Valid x) (k : Nat) :
    dayNum (iterN prevDay k x) = dayNum x - k := by
  induction k generalizing x with
  | zero => simp [iterN]
  | succ k ih =>
      rw [iterN_succ_left, ih (valid_prevDay h), dayNum_prevDay h]
      push_cast
      ring

theorem iterN_nextDay_prevDay {x : JSDate} (h : Valid x) (k : Nat) :
    iterN nextDay k (iterN prevDay k x) = x := by
  induction k generalizing x with
  | zero => rfl
  | succ k ih =>
      rw [iterN_succ_right prevDay, iterN_succ_left nextDay,
        nextDay_prevDay (valid_iterN_prevDay h k)]
      exact ih h

theorem valid_newDateYM (y m : Int) : Valid (newDateYM y m) := by
  have b1 := daysInMonth_bnd (yearAdj y + m / 12) (m % 12)
  refine ⟨?_, ?_, ?_, ?_, ?_, ?_⟩ <;> simp only [newDateYM] <;> omega

theorem getDay_bnd (x : JSDate) : 0 ≤ getDay x ∧ getDay x < 7 := by
  unfold getDay
  omega

theorem generateCalendarDays_length (dm : JSDate) :
    (generateCalendarDays dm).length = 42 := by
  simp [generateCalendarDays]

theorem generateCalendarDays_get (dm : JSDate) (i : Nat)
    (hi : i < (generateCalendarDays dm).length) :
    (generateCalendarDays dm).get ⟨i, hi⟩ =
      iterN nextDay i
        (iterN prevDay (getDay (newDateYM dm.year dm.month)).toNat
          (newDateYM dm.year dm.month)) := by
  simp [generateCalendarDays]

theorem newDateYM_of_valid {dm : JSDate} (hv : Valid dm)
    (hy : dm.year < 0 ∨ 99 < dm.year) :
    newDateYM dm.year dm.month = ⟨dm.year, dm.month, 1, 0⟩ := by
  obtain ⟨h1, h2, -, -, -, -⟩ := hv
  unfold newDateYM yearAdj
  rw [if_neg (by omega), Int.ediv_eq_zero_of_lt h1 (by omega),
    Int.emod_eq_of_lt h1 (by omega)]
  simp

/-! ## The claims -/

/-- **C1** (amended).  For a display month whose year lies outside 0..99
(for years 0..99 the JS `Date` constructor reads the year argument as
1900 + year, so the grid is built for that shifted month instead), the
grid has exactly 42 entries, consecutive calendar days (each entry's day
number is one more than the previous entry's), the first entry is the
Sunday on or before the first day of the display month (its day number
is the first's minus the first's weekday index, and its weekday is
Sunday = 0), and the entry at index `weekdayOf(firstOfMonth)` is the
first day of the display month. -/
theorem C1_monthGridBuild (dm : JSDate) (hv : Valid dm)
    (hy : dm.year < 0 ∨ 99 < dm.year) :
    (generateCalendarDays dm).length = 42 ∧
    (∀ i : Nat, ∀ hi : i + 1 < (generateCalendarDays dm).length,
      dayNum ((generateCalendarDays dm).get ⟨i + 1, hi⟩) =
        dayNum ((generateCalendarDays dm).get ⟨i, Nat.lt_of_succ_lt hi⟩) + 1) ∧
    (∀ h0 : 0 < (generateCalendarDays dm).length,
      dayNum ((generateCalendarDays dm).get ⟨0, h0⟩) =
          dayNum (⟨dm.year, dm.month, 1, 0⟩ : JSDate) -
            getDay (⟨dm.year, dm.month, 1, 0⟩ : JSDate) ∧
        getDay ((generateCalendarDays dm).get ⟨0, h0⟩) = 0) ∧
    (∀ hw : (getDay (⟨dm.year, dm.month, 1, 0⟩ : JSDate)).toNat <
        (generateCalendarDays dm).length,
      (generateCalendarDays dm).get
          ⟨(getDay (⟨dm.year, dm.month, 1, 0⟩ : JSDate)).toNat, hw⟩ =
        ⟨dm.year, dm.month, 1, 0⟩) := by
  have hnew : newDateYM dm.year dm.month = ⟨dm.year, dm.month, 1, 0⟩ :=
    newDateYM_of_valid hv hy
  have hvf : Valid (⟨dm.year, dm.month, 1, 0⟩ : JSDate) := by
    rw [← hnew]; exact valid_newDateYM dm.year dm.month
  have hvs : Valid (iterN prevDay (getDay (⟨dm.year, dm.month, 1, 0⟩ : JSDate)).toNat
      (⟨dm.year, dm.month, 1, 0⟩ : JSDate)) := valid_iterN_prevDay hvf _
  have hcast : ((getDay (⟨dm.year, dm.month, 1, 0⟩ : JSDate)).toNat : Int) =
      getDay (⟨dm.year, dm.month, 1, 0⟩ : JSDate) :=
    Int.toNat_of_nonneg (getDay_bnd _).1
  refine ⟨generateCalendarDays_length dm, ?_, ?_, ?_⟩
  · intro i hi
    rw [generateCalendarDays_get, generateCalendarDays_get, hnew,
      dayNum_iterN_nextDay hvs, dayNum_iterN_nextDay hvs]
    push_cast
    ring
  · intro h0
    have hg : (generateCalendarDays dm).get ⟨0, h0⟩ =
        iterN prevDay (getDay (⟨dm.year, dm.month, 1, 0⟩ : JSDate)).toNat
          (⟨dm.year, dm.month, 1, 0⟩ : JSDate) := by
      rw [generateCalendarDays_get, hnew]
      rfl
    have hstart : dayNum ((generateCalendarDays dm).get ⟨0, h0⟩) =
        dayNum (⟨dm.year, dm.month, 1, 0⟩ : JSDate) -
          getDay (⟨dm.year, dm.month, 1, 0⟩ : JSDate) := by
      rw [hg, dayNum_iterN_prevDay hvf, hcast]
    refine ⟨hstart, ?_⟩
    unfold getDay at *
    omega
  · intro hw
    rw [generateCalendarDays_get, hnew, iterN_nextDay_prevDay hvf]

/-- **C1** witness: the amended grid theorem applied to March 2024. -/
theorem C1_monthGridBuild_witness :
    Valid ⟨2024, 2, 5, 0⟩ ∧
    ((⟨2024, 2, 5, 0⟩ : JSDate).year < 0 ∨ 99 < (⟨2024, 2, 5, 0⟩ : JSDate).year) ∧
    (generateCalendarDays ⟨2024, 2, 5, 0⟩).length = 42 :=
  ⟨by decide, by decide, (C1_monthGridBuild _ (by decide) (by decide)).1⟩

/-- **C1** counterexample to the claim as stated: for the display month
January of year 99 the first of the month is `⟨99, 0, 1⟩`, a Thursday
(weekday index 4), but the grid entry at index 4 is 1998-12-31 — the
grid was built for January 1999, because `new Date(99, 0, 1)` reads
year 99 as 1999.  So the entry at `weekdayOf(firstOfMonth)` is not the
first day of the display month. -/
theorem C1_monthGridBuild_cex :
    Valid ⟨99, 0, 15, 0⟩ ∧
    getDay ⟨99, 0, 1, 0⟩ = 4 ∧
    (generateCalendarDays ⟨99, 0, 15, 0⟩).getD 4 default = ⟨1998, 11, 31, 0⟩ ∧
    (⟨1998, 11, 31, 0⟩ : JSDate) ≠ ⟨99, 0, 1, 0⟩ := by decide

/-- **C2** (amended).  For every selectable date, `handleDateSelect`
sets `selectedDate` to that date and closes the picker, but leaves
`displayMonth` (`currentMonth`) unchanged even when the selected date's
month differs from it — the original claim's display-month update does
not exist in the code. -/
theorem C2_selectDate (b : DateBounds) (st : PickerState) (date : JSDate)
    (h : isDateSelectable b date = true) :
    (handleDateSelect b st date).selectedDate = date ∧
    (handleDateSelect b st date).currentMonth = st.currentMonth ∧
    (handleDateSelect b st date).modalVisible = false := by
  unfold handleDateSelect
  rw [if_pos h]
  exact ⟨rfl, rfl, rfl⟩

/-- **C2** witness: selecting 2024-02-15 while January 2024 is displayed
(no bounds) sets `selectedDate` and leaves `currentMonth` at January. -/
theorem C2_selectDate_witness :
    isDateSelectable ⟨none, none⟩ ⟨2024, 1, 15, 0⟩ = true ∧
    (handleDateSelect ⟨none, none⟩ ⟨⟨2024, 0, 10, 0⟩, ⟨2024, 0, 1, 0⟩, true⟩
      ⟨2024, 1, 15, 0⟩).selectedDate = ⟨2024, 1, 15, 0⟩ ∧
    (handleDateSelect ⟨none, none⟩ ⟨⟨2024, 0, 10, 0⟩, ⟨2024, 0, 1, 0⟩, true⟩
      ⟨2024, 1, 15, 0⟩).currentMonth = ⟨2024, 0, 1, 0⟩ :=
  ⟨by decide, (C2_selectDate _ _ _ (by decide)).1, (C2_selectDate _ _ _ (by decide)).2.1⟩

/-- **C2** counterexample to the claim as stated: 2024-02-15 is
selectable and its month differs from the displayed January 2024, yet
after selection `currentMonth` is still January 2024, not the selected
date's first-of-month (February 1). -/
theorem C2_selectDate_cex :
    isDateSelectable ⟨none, none⟩ ⟨2024, 1, 15, 0⟩ = true ∧
    (⟨2024, 1, 15, 0⟩ : JSDate).month ≠ (⟨2024, 0, 1, 0⟩ : JSDate).month ∧
    (handleDateSelect ⟨none, none⟩ ⟨⟨2024, 0, 10, 0⟩, ⟨2024, 0, 1, 0⟩, true⟩
      ⟨2024, 1, 15, 0⟩).currentMonth = ⟨2024, 0, 1, 0⟩ ∧
    (⟨2024, 0, 1, 0⟩ : JSDate) ≠ ⟨2024, 1, 1, 0⟩ := by decide

/-- **C4.**  Selecting a non-selectable date is a silent no-op: the whole
state (selectedDate, currentMonth, modal visibility) is unchanged, and
calling the handler twice equals calling it once. -/
theorem C4_selectDate_noop (b : DateBounds) (st : PickerState) (date : JSDate)
    (h : isDateSelectable b date = false) :
    handleDateSelect b st date = st ∧
    handleDateSelect b (handleDateSelect b st date) date = handleDateSelect b st date := by
  unfold handleDateSelect
  rw [if_neg (by simp [h]), if_neg (by simp [h])]
  exact ⟨rfl, rfl⟩

/-- **C4** witness: selecting 2024-01-05 with `minDate` 2024-01-10
leaves the state exactly as it was. -/
theorem C4_selectDate_noop_witness :
    isDateSelectable ⟨some ⟨2024, 0, 10, 0⟩, none⟩ ⟨2024, 0, 5, 0⟩ = false ∧
    handleDateSelect ⟨some ⟨2024, 0, 10, 0⟩, none⟩ ⟨⟨2024, 0, 10, 0⟩, ⟨2024, 0, 1, 0⟩, true⟩
      ⟨2024, 0, 5, 0⟩ = ⟨⟨2024, 0, 10, 0⟩, ⟨2024, 0, 1, 0⟩, true⟩ :=
  ⟨by decide, (C4_selectDate_noop _ _ _ (by decide)).1⟩

/-- **C5** (amended).  From any prior state, `handleToday` sets
`selectedDate` to today and sets `currentMonth` to today itself — a date
lying in today's month (same year and month), but not normalized to the
first of the month — and closes the picker. -/
theorem C5_goToToday (today : JSDate) (st : PickerState) :
    (handleToday today st).selectedDate = today ∧
    (handleToday today st).currentMonth = today ∧
    (handleToday today st).currentMonth.year = today.year ∧
    (handleToday today st).currentMonth.month = today.month ∧
    (handleToday today st).modalVisible = false :=
  ⟨rfl, rfl, rfl, rfl, rfl⟩

/-- **C5** counterexample to the claim as stated: with today =
2024-03-05, `handleToday` sets `currentMonth` to 2024-03-05 itself,
which is not today's first-of-month 2024-03-01. -/
theorem C5_goToToday_cex :
    (handleToday ⟨2024, 2, 5, 0⟩ ⟨⟨2020, 0, 1, 0⟩, ⟨2020, 0, 1, 0⟩, true⟩).currentMonth =
      ⟨2024, 2, 5, 0⟩ ∧
    (⟨2024, 2, 5, 0⟩ : JSDate) ≠ ⟨2024, 2, 1, 0⟩ := by decide

/-- **C8** (amended).  For any integer `delta` and any valid display
month whose year is outside 0..99 (for years 0..99 the JS `Date`
constructor's two-digit-year rule maps the new display month into
1900 + year), `navigateMonth delta` keeps `selectedDate` and the modal
flag, and sets `currentMonth` to the first of the month exactly `delta`
months away (month index `year * 12 + month` shifts by `delta`), with
year rollover; in particular one month before January 2024 is
December 2023. -/
theorem C8_navigateMonth (delta : Int) (st : PickerState)
    (hv : Valid st.currentMonth)
    (hy : st.currentMonth.year < 0 ∨ 99 < st.currentMonth.year) :
    (navigateMonth delta st).selectedDate = st.selectedDate ∧
    (navigateMonth delta st).modalVisible = st.modalVisible ∧
    (navigateMonth delta st).currentMonth.day = 1 ∧
    (navigateMonth delta st).currentMonth.msOfDay = 0 ∧
    (navigateMonth delta st).currentMonth.year * 12 + (navigateMonth delta st).currentMonth.month =
      st.currentMonth.year * 12 + st.currentMonth.month + delta ∧
    (navigateMonth (-1) ⟨⟨2024, 0, 1, 0⟩, ⟨2024, 0, 1, 0⟩, false⟩).currentMonth =
      ⟨2023, 11, 1, 0⟩ := by
  obtain ⟨h1, h2, -, -, -, -⟩ := hv
  refine ⟨rfl, rfl, rfl, rfl, ?_, by decide⟩
  unfold navigateMonth newDateYM yearAdj
  dsimp only
  rw [if_neg (by omega)]
  omega

/-- **C8** witness: navigating one month back from a June 2024 selection
displaying January 2024 lands on December 2023 (month index
`2024 * 12 - 1`). -/
theorem C8_navigateMonth_witness :
    Valid (⟨⟨2024, 5, 15, 0⟩, ⟨2024, 0, 1, 0⟩, false⟩ : PickerState).currentMonth ∧
    ((⟨⟨2024, 5, 15, 0⟩, ⟨2024, 0, 1, 0⟩, false⟩ : PickerState).currentMonth.year < 0 ∨
      99 < (⟨⟨2024, 5, 15, 0⟩, ⟨2024, 0, 1, 0⟩, false⟩ : PickerState).currentMonth.year) ∧
    (navigateMonth (-1) ⟨⟨2024, 5, 15, 0⟩, ⟨2024, 0, 1, 0⟩, false⟩).currentMonth.year * 12 +
        (navigateMonth (-1) ⟨⟨2024, 5, 15, 0⟩, ⟨2024, 0, 1, 0⟩, false⟩).currentMonth.month =
      2024 * 12 + 0 + -1 :=
  ⟨by decide, by decide, (C8_navigateMonth (-1) _ (by decide) (by decide)).2.2.2.2.1⟩

/-- **C8** counterexample to the claim as stated: navigating one month
forward from December of year 99 (a reachable display month: navigating
back from January of year 100 produces it) lands on January 2000 —
month index 24000 — instead of January of year 100 — month index 1200 —
because `new Date(99, 12)` reads year 99 as 1999. -/
theorem C8_navigateMonth_cex :
    Valid ⟨99, 11, 1, 0⟩ ∧
    (navigateMonth 1 ⟨⟨2024, 0, 1, 0⟩, ⟨99, 11, 1, 0⟩, true⟩).currentMonth = ⟨2000, 0, 1, 0⟩ ∧
    ((2000 : Int) * 12 + 0 ≠ 99 * 12 + 11 + 1) := by decide

/-- **C9.**  `handleClear` resets `selectedDate` to the supplied default
(the current instant, `new Date()`) and leaves both `currentMonth` and
the modal flag unchanged. -/
theorem C9_clear (now : JSDate) (st : PickerState) :
    (handleClear now st).selectedDate = now ∧
    (handleClear now st).currentMonth = st.currentMonth ∧
    (handleClear now st).modalVisible = st.modalVisible :=
  ⟨rfl, rfl, rfl⟩

/-- **C10.**  The calendar grid depends only on the year and month of
its argument: two dates in the same calendar month — whatever their
day-of-month or time-of-day — produce identical 42-day grids. -/
theorem C10_gridMonthOnly (d1 d2 : JSDate) (h1 : d1.year = d2.year)
    (h2 : d1.month = d2.month) :
    generateCalendarDays d1 = generateCalendarDays d2 := by
  unfold generateCalendarDays
  rw [h1, h2]

/-- **C10** witness: 2024-03-05 at midnight and 2024-03-20 at a nonzero
time of day generate the same grid. -/
theorem C10_gridMonthOnly_witness :
    (⟨2024, 2, 5, 0⟩ : JSDate).year = (⟨2024, 2, 20, 12345⟩ : JSDate).year ∧
    (⟨2024, 2, 5, 0⟩ : JSDate).month = (⟨2024, 2, 20, 12345⟩ : JSDate).month ∧
    generateCalendarDays ⟨2024, 2, 5, 0⟩ = generateCalendarDays ⟨2024, 2, 20, 12345⟩ :=
  ⟨rfl, rfl, C10_gridMonthOnly _ _ rfl rfl⟩

/-- **C3** (amended).  `isDateSelectable` returns `true` iff (no min or
`min ≤ date`) and (no max or `date ≤ max`) where the comparison is by
full timestamp — day number and time-of-day — not by calendar day only;
both bounds are inclusive at timestamp equality, so whenever
`ts min ≤ ts max` the bound dates themselves are selectable. -/
theorem C3_isSelectable :
    (∀ b : DateBounds, ∀ date : JSDate,
      (isDateSelectable b date = true ↔
        (∀ mn ∈ b.minDate, ts mn ≤ ts date) ∧ (∀ mx ∈ b.maxDate, ts date ≤ ts mx))) ∧
    (∀ mn mx : JSDate, ts mn ≤ ts mx →
      isDateSelectable ⟨some mn, some mx⟩ mn = true ∧
      isDateSelectable ⟨some mn, some mx⟩ mx = true) := by
  have key : ∀ b : DateBounds, ∀ date : JSDate,
      (isDateSelectable b date = true ↔
        (∀ mn ∈ b.minDate, ts mn ≤ ts date) ∧ (∀ mx ∈ b.maxDate, ts date ≤ ts mx)) := by
    rintro ⟨mno, mxo⟩ date
    rcases mno with _ | mn <;> rcases mxo with _ | mx <;>
      simp [isDateSelectable]
  refine ⟨key, ?_⟩
  intro mn mx h
  constructor
  · rw [key]
    constructor
    · intro a ha
      simp at ha
      subst ha
      omega
    · intro a ha
      simp at ha
      subst ha
      omega
  · rw [key]
    constructor
    · intro a ha
      simp at ha
      subst ha
      omega
    · intro a ha
      simp at ha
      subst ha
      omega

/-- **C3** witness: with bounds 2024-01-01 .. 2024-12-31, both bound
dates are selectable. -/
theorem C3_isSelectable_witness :
    ts ⟨2024, 0, 1, 0⟩ ≤ ts ⟨2024, 11, 31, 0⟩ ∧
    isDateSelectable ⟨some ⟨2024, 0, 1, 0⟩, some ⟨2024, 11, 31, 0⟩⟩ ⟨2024, 0, 1, 0⟩ = true ∧
    isDateSelectable ⟨some ⟨2024, 0, 1, 0⟩, some ⟨2024, 11, 31, 0⟩⟩ ⟨2024, 11, 31, 0⟩ = true :=
  ⟨by decide, (C3_isSelectable.2 _ _ (by decide)).1, (C3_isSelectable.2 _ _ (by decide)).2⟩

/-- **C3** counterexample to the claim as stated: with `minDate` and
`maxDate` both 2024-03-05 at one millisecond past midnight, the date
2024-03-05 at midnight — the same calendar day as both bounds — is not
selectable, because the code compares timestamps, not calendar days. -/
theorem C3_isSelectable_cex :
    ts ⟨2024, 2, 5, 1⟩ ≤ ts ⟨2024, 2, 5, 1⟩ ∧
    (⟨2024, 2, 5, 0⟩ : JSDate).year = (⟨2024, 2, 5, 1⟩ : JSDate).year ∧
    (⟨2024, 2, 5, 0⟩ : JSDate).month = (⟨2024, 2, 5, 1⟩ : JSDate).month ∧
    (⟨2024, 2, 5, 0⟩ : JSDate).day = (⟨2024, 2, 5, 1⟩ : JSDate).day ∧
    isDateSelectable ⟨some ⟨2024, 2, 5, 1⟩, some ⟨2024, 2, 5, 1⟩⟩ ⟨2024, 2, 5, 0⟩ = false := by
  decide

/-! ## Decimal strings and the date formatter -/

/-- Digit list of a natural number, most significant first (structural
in a fuel argument; `natStr` supplies enough fuel). -/
def natStrAux : Nat → Nat → List Char
  | 0, _ => []
  | fuel + 1, n =>
      if n < 10 then [Nat.digitChar n]
      else natStrAux fuel (n / 10) ++ [Nat.digitChar (n % 10)]

/-- `Number.prototype.toString` of a natural number. -/
def natStr (n : Nat) : List Char := natStrAux (n + 1) n

/-- `Number.prototype.toString` of an integer. -/
def intStr (n : Int) : List Char :=
  if n < 0 then '-' :: natStr (-n).toNat else natStr n.toNat

/-- `.toString().padStart(2, "0")`: left-pad with zeros to length 2. -/
def padTwo (s : List Char) : List Char := List.replicate (2 - s.length) '0' ++ s

/-- `.slice(-2)`: the last two characters (whole string if shorter). -/
def lastTwo (s : List Char) : List Char := s.drop (s.length - 2)

/-- `hasRun c k l`: the first `k` characters of `l` exist and all
equal `c`. -/
def hasRun (c : Char) : Nat → List Char → Bool
  | 0, _ => true
  | _ + 1, [] => false
  | k + 1, a :: t => a = c && hasRun c k t

/-- Fuel-driven body of `repRun` (fuel = length of the list always
suffices, each step consumes at least one character). -/
def repRunAux (ch : Char) (k : Nat) (r : List Char) : Nat → List Char → List Char
  | 0, s => s
  | _ + 1, [] => []
  | fuel + 1, a :: t =>
      if a = ch && hasRun ch k t then r ++ repRunAux ch k r fuel (t.drop k)
      else a :: repRunAux ch k r fuel t

/-- `.replace(/c…c/g, r)` with a pattern of `k + 1` repetitions of the
character `ch`: scan left to right; at each position, if the pattern
matches (the current character is `ch` and the next `k` characters are
too), emit `r` and resume after the match — the replacement is not
rescanned — otherwise emit the character and advance by one. -/
def repRun (ch : Char) (k : Nat) (r : List Char) (s : List Char) : List Char :=
  repRunAux ch k r s.length s

/-- `formatCustomDate` (DatePicker.tsx, lines 379–391): the format
string undergoes six global replacements in source order:
`/YYYY/g` → year, `/YY/g` → last two characters of the year,
`/MM/g` → zero-padded month, `/M/g` → month, `/DD/g` → zero-padded day,
`/D/g` → day, where month is `getMonth() + 1` and day `getDate()`. -/
def formatCustomDate (x : JSDate) (fmt : List Char) : List Char :=
  repRun 'D' 0 (intStr x.day)
    (repRun 'D' 1 (padTwo (intStr x.day))
      (repRun 'M' 0 (intStr (x.month + 1))
        (repRun 'M' 1 (padTwo (intStr (x.month + 1)))
          (repRun 'Y' 1 (lastTwo (intStr x.year))
            (repRun 'Y' 3 (intStr x.year) fmt)))))

/-- Fuel-driven body of `specTokenSub`. -/
def specTokenSubAux (y4 y2 mm m1 dd d1 : List Char) : Nat → List Char → List Char
  | 0, s => s
  | _ + 1, [] => []
  | fuel + 1, a :: t =>
      if a = 'Y' then
        if hasRun 'Y' 3 t then y4 ++ specTokenSubAux y4 y2 mm m1 dd d1 fuel (t.drop 3)
        else if hasRun 'Y' 1 t then y2 ++ specTokenSubAux y4 y2 mm m1 dd d1 fuel (t.drop 1)
        else 'Y' :: specTokenSubAux y4 y2 mm m1 dd d1 fuel t
      else if a = 'M' then
        if hasRun 'M' 1 t then mm ++ specTokenSubAux y4 y2 mm m1 dd d1 fuel (t.drop 1)
        else m1 ++ specTokenSubAux y4 y2 mm m1 dd d1 fuel t
      else if a = 'D' then
        if hasRun 'D' 1 t then dd ++ specTokenSubAux y4 y2 mm m1 dd d1 fuel (t.drop 1)
        else d1 ++ specTokenSubAux y4 y2 mm m1 dd d1 fuel t
      else a :: specTokenSubAux y4 y2 mm m1 dd d1 fuel t

/-- Modelled from the spec's words (§4.3): a single left-to-right pass
over the pattern substituting tokens longest-token-first in the priority
order `YYYY`, `YY`, `MM`, `M`, `DD`, `D`; characters that start no token
pass through literally. -/
def specTokenSub (y4 y2 mm m1 dd d1 : List Char) (s : List Char) : List Char :=
  specTokenSubAux y4 y2 mm m1 dd d1 s.length s

/-! ### Step equations for the replacement scanners -/

/-- No character of `l` is `c`. -/
def noCh (c : Char) (l : List Char) : Prop := ∀ x ∈ l, x ≠ c

theorem repRunAux_irrel (ch : Char) (k : Nat) (r : List Char) :
    ∀ f g s, s.length ≤ f → s.length ≤ g →
      repRunAux ch k r f s = repRunAux ch k r g s := by
  intro f
  induction f with
  | zero =>
      intro g s hf hg
      have hs : s = [] := List.eq_nil_of_length_eq_zero (by omega)
      subst hs
      cases g <;> rfl
  | succ f ih =>
      intro g s hf hg
      rcases s with _ | ⟨a, t⟩
      · cases g <;> rfl
      · rcases g with _ | g
        · simp at hg
        · simp only [List.length_cons] at hf hg
          simp only [repRunAux]
          split_ifs with h1
          · rw [ih g (t.drop k) (by simp; omega) (by simp; omega)]
          · rw [ih g t (by omega) (by omega)]

theorem repRun_nil (ch : Char) (k : Nat) (r : List Char) : repRun ch k r [] = [] := rfl

theorem repRun_step (ch : Char) (k : Nat) (r : List Char) (a : Char) (t : List Char) :
    repRun ch k r (a :: t) =
      if a = ch && hasRun ch k t then r ++ repRun ch k r (t.drop k)
      else a :: repRun ch k r t := by
  unfold repRun
  simp only [List.length_cons, repRunAux]
  split_ifs with h1
  · rw [repRunAux_irrel ch k r t.length (t.drop k).length (t.drop k) (by simp) le_rfl]
  · rfl

theorem specTokenSubAux_irrel (y4 y2 mm m1 dd d1 : List Char) :
    ∀ f g s, s.length ≤ f → s.length ≤ g →
      specTokenSubAux y4 y2 mm m1 dd d1 f s = specTokenSubAux y4 y2 mm m1 dd d1 g s := by
  intro f
  induction f with
  | zero =>
      intro g s hf hg
      have hs : s = [] := List.eq_nil_of_length_eq_zero (by omega)
      subst hs
      cases g <;> rfl
  | succ f ih =>
      intro g s hf hg
      rcases s with _ | ⟨a, t⟩
      · cases g <;> rfl
      · rcases g with _ | g
        · simp at hg
        · simp only [List.length_cons] at hf hg
          simp only [specTokenSubAux]
          split_ifs <;>
            first
            | rw [ih g (t.drop 3) (by simp; omega) (by simp; omega)]
            | rw [ih g (t.drop 1) (by simp; omega) (by simp; omega)]
            | rw [ih g t (by omega) (by omega)]

theorem specTokenSub_nil (y4 y2 mm m1 dd d1 : List Char) :
    specTokenSub y4 y2 mm m1 dd d1 [] = [] := rfl

theorem specTokenSub_step (y4 y2 mm m1 dd d1 : List Char) (a : Char) (t : List Char) :
    specTokenSub y4 y2 mm m1 dd d1 (a :: t) =
      if a = 'Y' then
        if hasRun 'Y' 3 t then y4 ++ specTokenSub y4 y2 mm m1 dd d1 (t.drop 3)
        else if hasRun 'Y' 1 t then y2 ++ specTokenSub y4 y2 mm m1 dd d1 (t.drop 1)
        else 'Y' :: specTokenSub y4 y2 mm m1 dd d1 t
      else if a = 'M' then
        if hasRun 'M' 1 t then mm ++ specTokenSub y4 y2 mm m1 dd d1 (t.drop 1)
        else m1 ++ specTokenSub y4 y2 mm m1 dd d1 t
      else if a = 'D' then
        if hasRun 'D' 1 t then dd ++ specTokenSub y4 y2 mm m1 dd d1 (t.drop 1)
        else d1 ++ specTokenSub y4 y2 mm m1 dd d1 t
      else a :: specTokenSub y4 y2 mm m1 dd d1 t := by
  unfold specTokenSub
  simp only [List.length_cons, specTokenSubAux]
  split_ifs <;>
    first
    | rw [specTokenSubAux_irrel y4 y2 mm m1 dd d1 t.length (t.drop 3).length (t.drop 3)
        (by simp) le_rfl]
    | rw [specTokenSubAux_irrel y4 y2 mm m1 dd d1 t.length (t.drop 1).length (t.drop 1)
        (by simp) le_rfl]
    | rfl

theorem repRun_cons_ne (ch : Char) (k : Nat) (r : List Char) {a : Char} (t : List Char)
    (ha : a ≠ ch) :
    repRun ch k r (a :: t) = a :: repRun ch k r t := by
  rw [repRun_step]
  simp [ha]

theorem repRun_skip (ch : Char) (k : Nat) (r : List Char) {u : List Char} (v : List Char)
    (hu : noCh ch u) :
    repRun ch k r (u ++ v) = u ++ repRun ch k r v := by
  induction u with
  | nil => rfl
  | cons a u ih =>
      have ha : a ≠ ch := hu a (by simp)
      have hu' : noCh ch u := fun x hx => hu x (by simp [hx])
      rw [List.cons_append, repRun_cons_ne ch k r _ ha, ih hu']
      rfl

theorem hasRun_one_cons (c a : Char) (t : List Char) :
    hasRun c 1 (a :: t) = (a = c : Bool) := by
  simp [hasRun]

theorem hasRun_succ_mono {c : Char} {k : Nat} {l : List Char}
    (h : hasRun c (k + 1) l = true) : hasRun c k l = true := by
  induction k generalizing l with
  | zero => rfl
  | succ k ih =>
      rcases l with _ | ⟨a, t⟩
      · simp [hasRun] at h
      · simp only [hasRun, Bool.and_eq_true] at h ⊢
        exact ⟨h.1, ih h.2⟩

theorem hasRun_three_dest {c : Char} {l : List Char} (h : hasRun c 3 l = true) :
    ∃ t, l = c :: c :: c :: t ∧ l.drop 3 = t := by
  rcases l with _ | ⟨a, (_ | ⟨b, (_ | ⟨d, t⟩)⟩)⟩
  · simp [hasRun] at h
  · simp [hasRun] at h
  · simp [hasRun] at h
  · simp [hasRun] at h
    obtain ⟨rfl, rfl, rfl⟩ := h
    exact ⟨t, rfl, rfl⟩

theorem hasRun_one_dest {c : Char} {l : List Char} (h : hasRun c 1 l = true) :
    ∃ t, l = c :: t ∧ l.drop 1 = t := by
  rcases l with _ | ⟨a, t⟩
  · simp [hasRun] at h
  · simp [hasRun] at h
    subst h
    exact ⟨t, rfl, rfl⟩

theorem repRun_fire (ch : Char) (k : Nat) (r : List Char) {t : List Char}
    (h : hasRun ch k t = true) :
    repRun ch k r (ch :: t) = r ++ repRun ch k r (t.drop k) := by
  rw [repRun_step]
  simp [h]

theorem repRun_nofire (ch : Char) (k : Nat) (r : List Char) {t : List Char}
    (h : hasRun ch k t = false) :
    repRun ch k r (ch :: t) = ch :: repRun ch k r t := by
  rw [repRun_step]
  simp [h]

theorem repRun_zero_fire (ch : Char) (r : List Char) (t : List Char) :
    repRun ch 0 r (ch :: t) = r ++ repRun ch 0 r t := by
  have : repRun ch 0 r (ch :: t) = r ++ repRun ch 0 r (t.drop 0) := repRun_fire ch 0 r rfl
  simpa using this

theorem spec_stepY4 (y4 y2 mm m1 dd d1 : List Char) {t : List Char}
    (h3 : hasRun 'Y' 3 t = true) :
    specTokenSub y4 y2 mm m1 dd d1 ('Y' :: t) =
      y4 ++ specTokenSub y4 y2 mm m1 dd d1 (t.drop 3) := by
  rw [specTokenSub_step]
  simp [h3]

theorem spec_stepY2 (y4 y2 mm m1 dd d1 : List Char) {t : List Char}
    (h3 : hasRun 'Y' 3 t = false) (h1 : hasRun 'Y' 1 t = true) :
    specTokenSub y4 y2 mm m1 dd d1 ('Y' :: t) =
      y2 ++ specTokenSub y4 y2 mm m1 dd d1 (t.drop 1) := by
  rw [specTokenSub_step]
  simp [h3, h1]

theorem spec_stepY1 (y4 y2 mm m1 dd d1 : List Char) {t : List Char}
    (h3 : hasRun 'Y' 3 t = false) (h1 : hasRun 'Y' 1 t = false) :
    specTokenSub y4 y2 mm m1 dd d1 ('Y' :: t) =
      'Y' :: specTokenSub y4 y2 mm m1 dd d1 t := by
  rw [specTokenSub_step]
  simp [h3, h1]

theorem spec_stepMM (y4 y2 mm m1 dd d1 : List Char) {t : List Char}
    (h : hasRun 'M' 1 t = true) :
    specTokenSub y4 y2 mm m1 dd d1 ('M' :: t) =
      mm ++ specTokenSub y4 y2 mm m1 dd d1 (t.drop 1) := by
  rw [specTokenSub_step]
  simp [h]

theorem spec_stepM1 (y4 y2 mm m1 dd d1 : List Char) {t : List Char}
    (h : hasRun 'M' 1 t = false) :
    specTokenSub y4 y2 mm m1 dd d1 ('M' :: t) =
      m1 ++ specTokenSub y4 y2 mm m1 dd d1 t := by
  rw [specTokenSub_step]
  simp [h]

theorem spec_stepDD (y4 y2 mm m1 dd d1 : List Char) {t : List Char}
    (h : hasRun 'D' 1 t = true) :
    specTokenSub y4 y2 mm m1 dd d1 ('D' :: t) =
      dd ++ specTokenSub y4 y2 mm m1 dd d1 (t.drop 1) := by
  rw [specTokenSub_step]
  simp [h]

theorem spec_stepD1 (y4 y2 mm m1 dd d1 : List Char) {t : List Char}
    (h : hasRun 'D' 1 t = false) :
    specTokenSub y4 y2 mm m1 dd d1 ('D' :: t) =
      d1 ++ specTokenSub y4 y2 mm m1 dd d1 t := by
  rw [specTokenSub_step]
  simp [h]

theorem spec_stepOther (y4 y2 mm m1 dd d1 : List Char) {a : Char} (t : List Char)
    (hY : a ≠ 'Y') (hM : a ≠ 'M') (hD : a ≠ 'D') :
    specTokenSub y4 y2 mm m1 dd d1 (a :: t) =
      a :: specTokenSub y4 y2 mm m1 dd d1 t := by
  rw [specTokenSub_step]
  simp [hY, hM, hD]

theorem hasRun_one_append {c : Char} {u : List Char} (v : List Char) (hu : u ≠ []) :
    hasRun c 1 (u ++ v) = hasRun c 1 u := by
  rcases u with _ | ⟨x, u⟩
  · exact absurd rfl hu
  · rw [List.cons_append, hasRun_one_cons, hasRun_one_cons]

theorem hasRun_one_false_of_noCh {c : Char} {u : List Char} (v : List Char)
    (hu : u ≠ []) (hc : noCh c u) :
    hasRun c 1 (u ++ v) = false := by
  rcases u with _ | ⟨x, u⟩
  · exact absurd rfl hu
  · rw [List.cons_append, hasRun_one_cons]
    simp [hc x (by simp)]

/-- The Y stage of the replacement chain (`/YYYY/g` then `/YY/g`)
preserves whether the stream starts with a character `c ≠ 'Y'`. -/
theorem yStage_head {y4 y2 : List Char} {c : Char} (hc : c ≠ 'Y')
    (h4n : y4 ≠ []) (h2n : y2 ≠ [])
    (h4c : noCh c y4) (h2c : noCh c y2) (hY4 : noCh 'Y' y4) (t : List Char) :
    hasRun c 1 (repRun 'Y' 1 y2 (repRun 'Y' 3 y4 t)) = hasRun c 1 t := by
  rcases t with _ | ⟨b, t'⟩
  · rfl
  · by_cases hb : b = 'Y'
    · subst hb
      rw [hasRun_one_cons]
      by_cases h3 : hasRun 'Y' 3 t' = true
      · rw [repRun_fire 'Y' 3 y4 h3, repRun_skip 'Y' 1 y2 _ hY4,
          hasRun_one_false_of_noCh _ h4n h4c]
        simp [Ne.symm hc]
      · by_cases h1 : hasRun 'Y' 1 t' = true
        · obtain ⟨t2, rfl, hdrop⟩ := hasRun_one_dest h1
          have h2f : hasRun 'Y' 2 t2 = false := by
            by_contra hcon
            simp only [Bool.not_eq_false] at hcon
            have : hasRun 'Y' 3 ('Y' :: t2) = true := by
              simp [hasRun, hcon]
            exact h3 this
          have h3f : hasRun 'Y' 3 t2 = false := by
            by_contra hcon
            simp only [Bool.not_eq_false] at hcon
            exact absurd (hasRun_succ_mono hcon) (by simp [h2f])
          rw [repRun_nofire 'Y' 3 y4 (by simpa using h3),
            repRun_nofire 'Y' 3 y4 h3f]
          rw [repRun_fire 'Y' 1 y2 (by rw [hasRun_one_cons]; simp)]
          simp only [List.drop_one, List.tail_cons]
          rw [hasRun_one_false_of_noCh _ h2n h2c]
          simp [Ne.symm hc]
        · -- no 'Y' token continues: single literal 'Y'
          simp only [Bool.not_eq_true] at h1
          rw [repRun_nofire 'Y' 3 y4 (by simpa using h3)]
          have hd : hasRun 'Y' 1 (repRun 'Y' 3 y4 t') = false := by
            rcases t' with _ | ⟨x, t''⟩
            · rfl
            · have hx : x ≠ 'Y' := by
                rw [hasRun_one_cons] at h1
                simpa using h1
              rw [repRun_cons_ne 'Y' 3 y4 _ hx, hasRun_one_cons]
              simp [hx]
          rw [repRun_nofire 'Y' 1 y2 hd, hasRun_one_cons]
    · rw [repRun_cons_ne 'Y' 3 y4 _ hb, repRun_cons_ne 'Y' 1 y2 _ hb,
        hasRun_one_cons, hasRun_one_cons]

/-- The M stage (`/MM/g` then `/M/g`) preserves whether the stream
starts with a character `c ≠ 'M'`. -/
theorem mStage_head {mm m1 : List Char} {c : Char} (hc : c ≠ 'M')
    (hmn : mm ≠ []) (hm1n : m1 ≠ [])
    (hmc : noCh c mm) (hm1c : noCh c m1) (hMmm : noCh 'M' mm) (t : List Char) :
    hasRun c 1 (repRun 'M' 0 m1 (repRun 'M' 1 mm t)) = hasRun c 1 t := by
  rcases t with _ | ⟨b, t'⟩
  · rfl
  · by_cases hb : b = 'M'
    · subst hb
      rw [hasRun_one_cons]
      by_cases h1 : hasRun 'M' 1 t' = true
      · rw [repRun_fire 'M' 1 mm h1, repRun_skip 'M' 0 m1 _ hMmm,
          hasRun_one_false_of_noCh _ hmn hmc]
        simp [Ne.symm hc]
      · rw [repRun_nofire 'M' 1 mm (by simpa using h1), repRun_zero_fire,
          hasRun_one_false_of_noCh _ hm1n hm1c]
        simp [Ne.symm hc]
    · rw [repRun_cons_ne 'M' 1 mm _ hb, repRun_cons_ne 'M' 0 m1 _ (by simp [hb]),
        hasRun_one_cons, hasRun_one_cons]

theorem yRep3_head_false {y4 t : List Char} (h1 : hasRun 'Y' 1 t = false) :
    hasRun 'Y' 1 (repRun 'Y' 3 y4 t) = false := by
  rcases t with _ | ⟨x, t''⟩
  · rfl
  · have hx : x ≠ 'Y' := by
      rw [hasRun_one_cons] at h1
      simpa using h1
    rw [repRun_cons_ne 'Y' 3 y4 _ hx, hasRun_one_cons]
    simp [hx]

/-- The six sequential global replacements of the source equal the
single-pass longest-token-first substitution, provided the replacement
strings contain no token characters (and the ones that the later passes
scan over are nonempty). -/
theorem sixPass_eq_spec {y4 y2 mm m1 dd d1 : List Char}
    (hY4 : noCh 'Y' y4)
    (hM4 : noCh 'M' y4) (hM2 : noCh 'M' y2) (hMmm : noCh 'M' mm)
    (hD4 : noCh 'D' y4) (hD2 : noCh 'D' y2) (hDmm : noCh 'D' mm)
    (hDm1 : noCh 'D' m1) (hDdd : noCh 'D' dd)
    (n4 : y4 ≠ []) (n2 : y2 ≠ []) (nmm : mm ≠ []) (nm1 : m1 ≠ []) :
    ∀ s, repRun 'D' 0 d1 (repRun 'D' 1 dd (repRun 'M' 0 m1 (repRun 'M' 1 mm
      (repRun 'Y' 1 y2 (repRun 'Y' 3 y4 s))))) = specTokenSub y4 y2 mm m1 dd d1 s := by
  suffices H : ∀ n s, s.length ≤ n →
      repRun 'D' 0 d1 (repRun 'D' 1 dd (repRun 'M' 0 m1 (repRun 'M' 1 mm
        (repRun 'Y' 1 y2 (repRun 'Y' 3 y4 s))))) = specTokenSub y4 y2 mm m1 dd d1 s by
    exact fun s => H s.length s le_rfl
  intro n
  induction n with
  | zero =>
      intro s hs
      have : s = [] := List.eq_nil_of_length_eq_zero (by omega)
      subst this
      rfl
  | succ n ih =>
      intro s hs
      rcases s with _ | ⟨a, t⟩
      · rfl
      · simp only [List.length_cons] at hs
        by_cases haY : a = 'Y'
        · subst haY
          by_cases h3 : hasRun 'Y' 3 t = true
          · obtain ⟨t4, rfl, hdrop⟩ := hasRun_three_dest h3
            rw [repRun_fire 'Y' 3 y4 h3, hdrop,
              repRun_skip 'Y' 1 y2 _ hY4, repRun_skip 'M' 1 mm _ hM4,
              repRun_skip 'M' 0 m1 _ hM4, repRun_skip 'D' 1 dd _ hD4,
              repRun_skip 'D' 0 d1 _ hD4,
              ih t4 (by simp at hs; omega),
              spec_stepY4 _ _ _ _ _ _ h3, hdrop]
          · by_cases h1 : hasRun 'Y' 1 t = true
            · obtain ⟨t2, rfl, hdrop⟩ := hasRun_one_dest h1
              have h2f : hasRun 'Y' 2 t2 = false := by
                by_contra hcon
                simp only [Bool.not_eq_false] at hcon
                exact h3 (by simp [hasRun, hcon])
              have h3f : hasRun 'Y' 3 t2 = false := by
                by_contra hcon
                simp only [Bool.not_eq_false] at hcon
                exact absurd (hasRun_succ_mono hcon) (by simp [h2f])
              rw [repRun_nofire 'Y' 3 y4 (by simpa using h3),
                repRun_nofire 'Y' 3 y4 h3f,
                repRun_fire 'Y' 1 y2 (by rw [hasRun_one_cons]; simp),
                List.drop_succ_cons, List.drop_zero,
                repRun_skip 'M' 1 mm _ hM2, repRun_skip 'M' 0 m1 _ hM2,
                repRun_skip 'D' 1 dd _ hD2, repRun_skip 'D' 0 d1 _ hD2,
                ih t2 (by simp at hs; omega),
                spec_stepY2 _ _ _ _ _ _ (by simpa using h3) h1, hdrop]
            · have h1f : hasRun 'Y' 1 t = false := by simpa using h1
              rw [repRun_nofire 'Y' 3 y4 (by simpa using h3),
                repRun_nofire 'Y' 1 y2 (yRep3_head_false h1f),
                repRun_cons_ne 'M' 1 mm _ (by decide),
                repRun_cons_ne 'M' 0 m1 _ (by decide),
                repRun_cons_ne 'D' 1 dd _ (by decide),
                repRun_cons_ne 'D' 0 d1 _ (by decide),
                ih t (by omega),
                spec_stepY1 _ _ _ _ _ _ (by simpa using h3) h1f]
        · by_cases haM : a = 'M'
          · subst haM
            rw [repRun_cons_ne 'Y' 3 y4 _ (by decide),
              repRun_cons_ne 'Y' 1 y2 _ (by decide)]
            by_cases hm : hasRun 'M' 1 t = true
            · obtain ⟨t2, rfl, hdrop⟩ := hasRun_one_dest hm
              rw [repRun_cons_ne 'Y' 3 y4 _ (by decide),
                repRun_cons_ne 'Y' 1 y2 _ (by decide),
                repRun_fire 'M' 1 mm (by rw [hasRun_one_cons]; simp),
                List.drop_succ_cons, List.drop_zero,
                repRun_skip 'M' 0 m1 _ hMmm,
                repRun_skip 'D' 1 dd _ hDmm, repRun_skip 'D' 0 d1 _ hDmm,
                ih t2 (by simp at hs; omega),
                spec_stepMM _ _ _ _ _ _ hm, hdrop]
            · have hmf : hasRun 'M' 1 t = false := by simpa using hm
              have hmYst : hasRun 'M' 1 (repRun 'Y' 1 y2 (repRun 'Y' 3 y4 t)) = false := by
                rw [yStage_head (by decide) n4 n2 hM4 hM2 hY4 t]
                exact hmf
              rw [repRun_nofire 'M' 1 mm hmYst,
                repRun_zero_fire 'M' m1,
                repRun_skip 'D' 1 dd _ hDm1, repRun_skip 'D' 0 d1 _ hDm1,
                ih t (by omega),
                spec_stepM1 _ _ _ _ _ _ hmf]
          · by_cases haD : a = 'D'
            · subst haD
              rw [repRun_cons_ne 'Y' 3 y4 _ (by decide),
                repRun_cons_ne 'Y' 1 y2 _ (by decide),
                repRun_cons_ne 'M' 1 mm _ (by decide),
                repRun_cons_ne 'M' 0 m1 _ (by decide)]
              by_cases hd1 : hasRun 'D' 1 t = true
              · obtain ⟨t2, rfl, hdrop⟩ := hasRun_one_dest hd1
                rw [repRun_cons_ne 'Y' 3 y4 _ (by decide),
                  repRun_cons_ne 'Y' 1 y2 _ (by decide),
                  repRun_cons_ne 'M' 1 mm _ (by decide),
                  repRun_cons_ne 'M' 0 m1 _ (by decide),
                  repRun_fire 'D' 1 dd (by rw [hasRun_one_cons]; simp),
                  List.drop_succ_cons, List.drop_zero,
                  repRun_skip 'D' 0 d1 _ hDdd,
                  ih t2 (by simp at hs; omega),
                  spec_stepDD _ _ _ _ _ _ hd1, hdrop]
              · have hdf : hasRun 'D' 1 t = false := by simpa using hd1
                have hdMst : hasRun 'D' 1 (repRun 'M' 0 m1 (repRun 'M' 1 mm
                    (repRun 'Y' 1 y2 (repRun 'Y' 3 y4 t)))) = false := by
                  rw [mStage_head (by decide) nmm nm1 hDmm hDm1 hMmm,
                    yStage_head (by decide) n4 n2 hD4 hD2 hY4 t]
                  exact hdf
                rw [repRun_nofire 'D' 1 dd hdMst,
                  repRun_zero_fire 'D' d1,
                  ih t (by omega),
                  spec_stepD1 _ _ _ _ _ _ hdf]
            · rw [repRun_cons_ne 'Y' 3 y4 _ haY,
                repRun_cons_ne 'Y' 1 y2 _ haY,
                repRun_cons_ne 'M' 1 mm _ haM,
                repRun_cons_ne 'M' 0 m1 _ haM,
                repRun_cons_ne 'D' 1 dd _ haD,
                repRun_cons_ne 'D' 0 d1 _ haD,
                ih t (by omega),
                spec_stepOther _ _ _ _ _ _ _ haY haM haD]

/-! ### The replacement strings are token-free and nonempty -/

theorem digitChar_notTok (n : Nat) :
    Nat.digitChar n ≠ 'Y' ∧ Nat.digitChar n ≠ 'M' ∧ Nat.digitChar n ≠ 'D' := by
  rcases n with _|_|_|_|_|_|_|_|_|_|_|_|_|_|_|_|n
  · decide
  · decide
  · decide
  · decide
  · decide
  · decide
  · decide
  · decide
  · decide
  · decide
  · decide
  · decide
  · decide
  · decide
  · decide
  · decide
  · have hne : ∀ k : Nat, k < 16 → ¬ n + 16 = k := by omega
    have h : Nat.digitChar (n + 16) = '*' := by
      unfold Nat.digitChar
      rw [if_neg (hne 0 (by norm_num)), if_neg (hne 1 (by norm_num)),
        if_neg (hne 2 (by norm_num)), if_neg (hne 3 (by norm_num)),
        if_neg (hne 4 (by norm_num)), if_neg (hne 5 (by norm_num)),
        if_neg (hne 6 (by norm_num)), if_neg (hne 7 (by norm_num)),
        if_neg (hne 8 (by norm_num)), if_neg (hne 9 (by norm_num)),
        if_neg (hne 10 (by norm_num)), if_neg (hne 11 (by norm_num)),
        if_neg (hne 12 (by norm_num)), if_neg (hne 13 (by norm_num)),
        if_neg (hne 14 (by norm_num)), if_neg (hne 15 (by norm_num))]
    rw [h]
    decide

theorem natStrAux_mem : ∀ f n, ∀ c ∈ natStrAux f n, ∃ k, c = Nat.digitChar k := by
  intro f
  induction f with
  | zero =>
      intro n c hc
      simp [natStrAux] at hc
  | succ f ih =>
      intro n c hc
      simp only [natStrAux] at hc
      split_ifs at hc
      · simp at hc
        exact ⟨n, hc⟩
      · rcases List.mem_append.mp hc with h | h
        · exact ih _ c h
        · simp at h
          exact ⟨n % 10, h⟩

theorem natStr_noCh (n : Nat) {c : Char} (hc : c = 'Y' ∨ c = 'M' ∨ c = 'D') :
    noCh c (natStr n) := by
  intro x hx
  obtain ⟨k, rfl⟩ := natStrAux_mem _ _ x hx
  have h := digitChar_notTok k
  rcases hc with rfl | rfl | rfl <;> tauto

theorem intStr_noCh (n : Int) {c : Char} (hc : c = 'Y' ∨ c = 'M' ∨ c = 'D') :
    noCh c (intStr n) := by
  intro x hx
  unfold intStr at hx
  split_ifs at hx
  · rcases List.mem_cons.mp hx with rfl | hx2
    · rcases hc with rfl | rfl | rfl <;> decide
    · exact natStr_noCh _ hc x hx2
  · exact natStr_noCh _ hc x hx

theorem padTwo_noCh {s : List Char} {c : Char} (hc : c = 'Y' ∨ c = 'M' ∨ c = 'D')
    (hs : noCh c s) : noCh c (padTwo s) := by
  intro x hx
  unfold padTwo at hx
  rcases List.mem_append.mp hx with h | h
  · have h0 := List.eq_of_mem_replicate h
    subst h0
    rcases hc with rfl | rfl | rfl <;> decide
  · exact hs x h

theorem lastTwo_noCh {s : List Char} {c : Char} (hs : noCh c s) : noCh c (lastTwo s) := by
  intro x hx
  exact hs x (List.drop_subset _ _ hx)

theorem natStr_ne_nil (n : Nat) : natStr n ≠ [] := by
  unfold natStr natStrAux
  split_ifs <;> simp

theorem intStr_ne_nil (n : Int) : intStr n ≠ [] := by
  unfold intStr
  split_ifs
  · simp
  · exact natStr_ne_nil _

theorem padTwo_length (s : List Char) : (padTwo s).length = max 2 s.length := by
  simp [padTwo]
  omega

theorem padTwo_ne_nil (s : List Char) : padTwo s ≠ [] := by
  have h := padTwo_length s
  intro hcon
  rw [hcon] at h
  simp at h
  omega

theorem lastTwo_ne_nil {s : List Char} (hs : s ≠ []) : lastTwo s ≠ [] := by
  have h1 : 0 < s.length := List.length_pos.mpr hs
  have h2 : (lastTwo s).length = s.length - (s.length - 2) := by simp [lastTwo]
  intro hcon
  rw [hcon] at h2
  simp at h2
  omega

/-- **C6.**  Custom-pattern formatting is exactly the longest-token-first
substitution over the literal pattern string in the priority order
`YYYY` (year), `YY` (last two characters of the year), `MM` (zero-padded
month), `M` (month), `DD` (zero-padded day), `D` (day): the source's six
sequential global replacements coincide, for every date and every
pattern, with the single-pass scanner `specTokenSub`, under which tokens
not present and non-token characters pass through literally; and
formatting 2024-03-05 with pattern `D/M/YY` yields `5/3/24`. -/
theorem C6_customFormat :
    (∀ (x : JSDate) (fmt : List Char),
      formatCustomDate x fmt =
        specTokenSub (intStr x.year) (lastTwo (intStr x.year))
          (padTwo (intStr (x.month + 1))) (intStr (x.month + 1))
          (padTwo (intStr x.day)) (intStr x.day) fmt) ∧
    formatCustomDate ⟨2024, 2, 5, 0⟩ ("D/M/YY").toList = ("5/3/24").toList := by
  constructor
  · intro x fmt
    unfold formatCustomDate
    exact sixPass_eq_spec
      (intStr_noCh _ (by tauto)) (intStr_noCh _ (by tauto))
      (lastTwo_noCh (intStr_noCh _ (by tauto))) (padTwo_noCh (by tauto) (intStr_noCh _ (by tauto)))
      (intStr_noCh _ (by tauto)) (lastTwo_noCh (intStr_noCh _ (by tauto)))
      (padTwo_noCh (by tauto) (intStr_noCh _ (by tauto))) (intStr_noCh _ (by tauto))
      (padTwo_noCh (by tauto) (intStr_noCh _ (by tauto)))
      (intStr_ne_nil _) (lastTwo_ne_nil (intStr_ne_nil _))
      (padTwo_ne_nil _) (intStr_ne_nil _) fmt
  · decide

theorem natStrAux_length_le : ∀ f n k, n < 10 ^ (k + 1) → (natStrAux f n).length ≤ k + 1 := by
  intro f
  induction f with
  | zero =>
      intro n k h
      simp [natStrAux]
  | succ f ih =>
      intro n k h
      simp only [natStrAux]
      split_ifs with h10
      · simp
      · rcases k with _ | k
        · exfalso
          rw [pow_one] at h
          omega
        · simp only [List.length_append, List.length_cons, List.length_nil]
          have hdiv : n / 10 < 10 ^ (k + 1) := by
            rw [Nat.div_lt_iff_lt_mul (by norm_num)]
            calc n < 10 ^ (k + 2) := h
            _ = 10 ^ (k + 1) * 10 := by ring
          have hle := ih (n / 10) k hdiv
          omega

theorem natStr_length_le_two {n : Nat} (h : n < 100) : (natStr n).length ≤ 2 := by
  have := natStrAux_length_le (n + 1) n 1 (by norm_num; omega)
  simpa [natStr] using this

theorem natStrAux_length_ge : ∀ k f n, 10 ^ k ≤ n → n < f → k + 1 ≤ (natStrAux f n).length := by
  intro k
  induction k with
  | zero =>
      intro f n h1 h2
      rcases f with _ | f
      · omega
      · simp only [natStrAux]
        split_ifs <;> simp
  | succ k ih =>
      intro f n h1 h2
      rcases f with _ | f
      · omega
      · have hp : (10 : Nat) ^ 1 ≤ 10 ^ (k + 1) := Nat.pow_le_pow_right (by norm_num) (by omega)
        rw [pow_one] at hp
        have h10 : 10 ≤ n := le_trans hp h1
        simp only [natStrAux]
        rw [if_neg (by omega)]
        simp only [List.length_append, List.length_cons, List.length_nil]
        have hge : 10 ^ k ≤ n / 10 := by
          rw [Nat.le_div_iff_mul_le (by norm_num)]
          calc 10 ^ k * 10 = 10 ^ (k + 1) := by ring
          _ ≤ n := h1
        have hlt : n / 10 < f := by
          have hd : n / 10 < n := Nat.div_lt_self (by omega) (by norm_num)
          omega
        have := ih f (n / 10) hge hlt
        omega

theorem natStr_length_ge_four {n : Nat} (h : 1000 ≤ n) : 4 ≤ (natStr n).length := by
  have := natStrAux_length_ge 3 (n + 1) n (by norm_num; omega) (by omega)
  simpa [natStr] using this

theorem intStr_nonneg {n : Int} (h : 0 ≤ n) : intStr n = natStr n.toNat := by
  unfold intStr
  rw [if_neg (by omega)]

/-- The 12-entry short month-name table of `getMonthName`
(DatePicker.tsx, lines 344–376). -/
def monthShort : List (List Char) :=
  [("Jan").toList, ("Feb").toList, ("Mar").toList, ("Apr").toList,
   ("May").toList, ("Jun").toList, ("Jul").toList, ("Aug").toList,
   ("Sep").toList, ("Oct").toList, ("Nov").toList, ("Dec").toList]

/-- `getMonthName(monthIndex, true)`: index into the fixed 12-entry
table (the source's out-of-range lookup yields `undefined`; modelled by
the empty string, and only month indices 0..11 occur on valid dates). -/
def getMonthName (m : Int) : List Char := monthShort.getD m.toNat []

/-- The `format` prop's variants (the `DateFormat` union type). -/
inductive DateFormat where
  | ddmmyyyy
  | mmddyyyy
  | yyyymmdd
  | ddMmmYyyy
  | mmmDdYyyy
  | custom
  deriving DecidableEq

/-- `formatDate` (DatePicker.tsx, lines 303–342): the switch over the
format prop.  Day and month (`getMonth() + 1`) are zero-padded with
`padStart(2, "0")`, the year is `getFullYear().toString()` unpadded.
In custom mode without a `customFormat` the source falls back to
`toLocaleDateString()`, a platform locale rendering passed in as
`locale`. -/
def formatDate (fmt : DateFormat) (customFormat : Option (List Char))
    (locale : List Char) (x : JSDate) : List Char :=
  match fmt with
  | .ddmmyyyy =>
      padTwo (intStr x.day) ++ ['/'] ++ padTwo (intStr (x.month + 1)) ++ ['/'] ++ intStr x.year
  | .mmddyyyy =>
      padTwo (intStr (x.month + 1)) ++ ['/'] ++ padTwo (intStr x.day) ++ ['/'] ++ intStr x.year
  | .yyyymmdd =>
      intStr x.year ++ ['-'] ++ padTwo (intStr (x.month + 1)) ++ ['-'] ++ padTwo (intStr x.day)
  | .ddMmmYyyy =>
      padTwo (intStr x.day) ++ [' '] ++ getMonthName x.month ++ [' '] ++ intStr x.year
  | .mmmDdYyyy =>
      getMonthName x.month ++ [' '] ++ padTwo (intStr x.day) ++ [',', ' '] ++ intStr x.year
  | .custom =>
      match customFormat with
      | some f => formatCustomDate x f
      | none => locale

/-- **C7** (amended).  For every valid date with a year of at least 1000
(for earlier years the year still renders unpadded but with fewer than
four digits — see the counterexample), the fixed patterns render the day
and the month zero-padded to exactly two digits and the year as an
unpadded decimal of at least four digits; formatting 2024-03-05 with
`DD/MM/YYYY` yields `05/03/2024` and with `YYYY-MM-DD` yields
`2024-03-05`. -/
theorem C7_fixedFormats (x : JSDate) (hv : Valid x) (hy : 1000 ≤ x.year) :
    formatDate .ddmmyyyy none [] x =
      padTwo (intStr x.day) ++ ['/'] ++ padTwo (intStr (x.month + 1)) ++ ['/'] ++ intStr x.year ∧
    formatDate .yyyymmdd none [] x =
      intStr x.year ++ ['-'] ++ padTwo (intStr (x.month + 1)) ++ ['-'] ++ padTwo (intStr x.day) ∧
    (padTwo (intStr x.day)).length = 2 ∧
    (padTwo (intStr (x.month + 1))).length = 2 ∧
    4 ≤ (intStr x.year).length ∧
    formatDate .ddmmyyyy none [] ⟨2024, 2, 5, 0⟩ = ("05/03/2024").toList ∧
    formatDate .yyyymmdd none [] ⟨2024, 2, 5, 0⟩ = ("2024-03-05").toList := by
  obtain ⟨h1, h2, h3, h4, -, -⟩ := hv
  have hb := daysInMonth_bnd x.year x.month
  have hday : intStr x.day = natStr x.day.toNat := intStr_nonneg (by omega)
  have hmon : intStr (x.month + 1) = natStr (x.month + 1).toNat := intStr_nonneg (by omega)
  have hyr : intStr x.year = natStr x.year.toNat := intStr_nonneg (by omega)
  refine ⟨rfl, rfl, ?_, ?_, ?_, by decide, by decide⟩
  · rw [hday, padTwo_length]
    have hl : (natStr x.day.toNat).length ≤ 2 := natStr_length_le_two (by omega)
    omega
  · rw [hmon, padTwo_length]
    have hl : (natStr (x.month + 1).toNat).length ≤ 2 := natStr_length_le_two (by omega)
    omega
  · rw [hyr]
    exact natStr_length_ge_four (by omega)

/-- **C7** witness: the padding facts at 2024-03-05. -/
theorem C7_fixedFormats_witness :
    Valid ⟨2024, 2, 5, 0⟩ ∧ 1000 ≤ (⟨2024, 2, 5, 0⟩ : JSDate).year ∧
    (padTwo (intStr (⟨2024, 2, 5, 0⟩ : JSDate).day)).length = 2 ∧
    4 ≤ (intStr (⟨2024, 2, 5, 0⟩ : JSDate).year).length :=
  ⟨by decide, by decide, (C7_fixedFormats _ (by decide) (by decide)).2.2.1,
    (C7_fixedFormats _ (by decide) (by decide)).2.2.2.2.1⟩

/-- **C7** counterexample to the claim as stated: on 2024-03-05 with the
year replaced by 99, `YYYY-MM-DD` renders `99-03-05` — the year part has
fewer than four digits. -/
theorem C7_fixedFormats_cex :
    Valid ⟨99, 2, 5, 0⟩ ∧
    formatDate .yyyymmdd none [] ⟨99, 2, 5, 0⟩ = ("99-03-05").toList ∧
    (intStr (⟨99, 2, 5, 0⟩ : JSDate).year).length < 4 := by decide
